import Mathlib

/-!
Verification of the md2pptx core (slide model builder and layout engine),
shallowly embedded from `src/index.tsx`.

Conventions of the embedding:
* JS strings are Lean `String`s; regex matching over paragraph text is
  implemented character-by-character, faithful to the backtracking semantics
  of the three anchored patterns the source uses.
* JS numbers in the layout engine are modelled as `ℚ` (the layout arithmetic
  only adds, subtracts, multiplies and compares decimal constants).
* `JSON.parse` and the `marked` lexer are external collaborators; the JSON
  parser is a parameter `j : String → Option ShapeOptions` (`none` models a
  thrown exception), and token streams are taken as inputs.
* Boolean style flags (`bold`, `italic`, `bullet`, `breakLine`) are `Bool`
  with `false` for an absent property: the source only ever writes `true`
  into these fields, so presence and truth coincide.
* `console.error` output is modelled as an ordered list of diagnostic
  strings threaded through the state.
-/

namespace Md2Pptx

/-- Hyperlink payload of a styled text run (`{ url, tooltip }`). -/
structure Hyperlink where
  url : String
  tooltip : String
deriving DecidableEq, Repr

/-- Text run options (`PptxGenJS.TextPropsOptions` as used by the source). -/
structure TextOptions where
  bold : Bool := false
  italic : Bool := false
  fontFace : Option String := none
  hyperlink : Option Hyperlink := none
  bullet : Bool := false
  breakLine : Bool := false
deriving DecidableEq, Repr

/-- The empty options object `{}`. -/
def TextOptions.empty : TextOptions := {}

/-- A styled text run (`PptxGenJS.TextProps`): a `text` and an optional
`options` object (runs created by `runs.unshift({ text: box })` carry none). -/
structure TextProps where
  text : String
  options : Option TextOptions := none
deriving DecidableEq, Repr

/-- Inline tokens of the `marked` lexer, as consumed by `parseTextRuns`:
`strong`, `em`, `codespan`, `link`, `text` (whose nested `tokens` property may
be absent), and a catch-all for every other token type, of which only the
`raw` property is consulted. -/
inductive InlineToken where
  | strong (tokens : List InlineToken) (raw : String)
  | em (tokens : List InlineToken) (raw : String)
  | codespan (text : String) (raw : String)
  | link (href : String) (title : Option String) (tokens : List InlineToken) (raw : String)
  | text (text : String) (tokens : Option (List InlineToken)) (raw : String)
  | other (raw : String)
deriving Repr

/-- `token.title || token.href`: the tooltip falls back to the href when the
title is absent or the empty string (both falsy in JS). -/
def linkTooltip (title : Option String) (href : String) : String :=
  match title with
  | some t => if t = "" then href else t
  | none => href

mutual

/-- Runs contributed by one inline token under inherited options
(one `switch` arm of `parseTextRuns` in the source). -/
def runsOfToken : InlineToken → TextOptions → List TextProps
  | .strong toks _, cur => parseTextRuns toks { cur with bold := true }
  | .em toks _, cur => parseTextRuns toks { cur with italic := true }
  | .codespan t _, cur =>
      [{ text := " " ++ t ++ " ", options := some { cur with fontFace := some "Courier New" } }]
  | .link href title toks _, cur =>
      parseTextRuns toks
        { cur with hyperlink := some { url := href, tooltip := linkTooltip title href } }
  | .text t none _, cur => [{ text := t, options := some cur }]
  | .text _ (some toks) _, cur => parseTextRuns toks cur
  | .other raw, cur => if raw = "" then [] else [{ text := raw, options := some cur }]

/-- `parseTextRuns(tokens, parentOptions)` from the source: flatten a nested
inline token tree into a flat run sequence. -/
def parseTextRuns : List InlineToken → TextOptions → List TextProps
  | [], _ => []
  | t :: ts, parentOptions => runsOfToken t parentOptions ++ parseTextRuns ts parentOptions

end

mutual

/-- The rendered text of one inline token: what `parseTextRuns` emits for it,
with formatting stripped (code spans keep their single-space padding). -/
def renderTok : InlineToken → String
  | .strong toks _ => renderToks toks
  | .em toks _ => renderToks toks
  | .codespan t _ => " " ++ t ++ " "
  | .link _ _ toks _ => renderToks toks
  | .text t none _ => t
  | .text _ (some toks) _ => renderToks toks
  | .other raw => raw

/-- Rendered text of an inline token list, in order. -/
def renderToks : List InlineToken → String
  | [] => ""
  | t :: ts => renderTok t ++ renderToks ts

end

/-- Concatenation of the `text` fields of a run sequence, in order. -/
def runsText (rs : List TextProps) : String :=
  rs.foldr (fun r acc => r.text ++ acc) ""

/-- The `bold` flag of an optional options object (absent reads falsy). -/
def optBold : Option TextOptions → Bool
  | some o => o.bold
  | none => false

/-- The `italic` flag of an optional options object (absent reads falsy). -/
def optItalic : Option TextOptions → Bool
  | some o => o.italic
  | none => false

/-- The `hyperlink` property of an optional options object. -/
def optHyperlink : Option TextOptions → Option Hyperlink
  | some o => o.hyperlink
  | none => none

theorem runsText_append (a b : List TextProps) :
    runsText (a ++ b) = runsText a ++ runsText b := by
  induction a with
  | nil => simp [runsText]
  | cons r rs ih =>
      simp only [runsText, List.foldr_cons, List.cons_append] at *
      rw [ih, String.append_assoc]

mutual

theorem runsText_runsOfToken (t : InlineToken) (o : TextOptions) :
    runsText (runsOfToken t o) = renderTok t := by
  match t with
  | .strong toks _ =>
      simp only [runsOfToken, renderTok]
      exact runsText_parseTextRuns toks _
  | .em toks _ =>
      simp only [runsOfToken, renderTok]
      exact runsText_parseTextRuns toks _
  | .codespan s _ => simp [runsOfToken, renderTok, runsText]
  | .link href title toks _ =>
      simp only [runsOfToken, renderTok]
      exact runsText_parseTextRuns toks _
  | .text s none _ => simp [runsOfToken, renderTok, runsText]
  | .text s (some toks) _ =>
      simp only [runsOfToken, renderTok]
      exact runsText_parseTextRuns toks _
  | .other raw =>
      by_cases h : raw = "" <;> simp [runsOfToken, renderTok, runsText, h]

theorem runsText_parseTextRuns (ts : List InlineToken) (o : TextOptions) :
    runsText (parseTextRuns ts o) = renderToks ts := by
  match ts with
  | [] => simp [parseTextRuns, renderToks, runsText]
  | t :: ts =>
      simp only [parseTextRuns, renderToks, runsText_append]
      rw [runsText_runsOfToken t o, runsText_parseTextRuns ts o]

end

mutual

/-- Whether a `strong` token occurs anywhere in an inline token tree. -/
def hasStrongTok : InlineToken → Bool
  | .strong _ _ => true
  | .em toks _ => hasStrongToks toks
  | .codespan _ _ => false
  | .link _ _ toks _ => hasStrongToks toks
  | .text _ none _ => false
  | .text _ (some toks) _ => hasStrongToks toks
  | .other _ => false

/-- Whether a `strong` token occurs anywhere in an inline token list. -/
def hasStrongToks : List InlineToken → Bool
  | [] => false
  | t :: ts => hasStrongTok t || hasStrongToks ts

end

mutual

/-- Whether an `em` token occurs anywhere in an inline token tree. -/
def hasEmTok : InlineToken → Bool
  | .strong toks _ => hasEmToks toks
  | .em _ _ => true
  | .codespan _ _ => false
  | .link _ _ toks _ => hasEmToks toks
  | .text _ none _ => false
  | .text _ (some toks) _ => hasEmToks toks
  | .other _ => false

/-- Whether an `em` token occurs anywhere in an inline token list. -/
def hasEmToks : List InlineToken → Bool
  | [] => false
  | t :: ts => hasEmTok t || hasEmToks ts

end

mutual

theorem options_mono_runsOfToken (t : InlineToken) (o : TextOptions) (r : TextProps)
    (hr : r ∈ runsOfToken t o) :
    ∃ ro, r.options = some ro ∧ (o.bold = true → ro.bold = true) ∧
      (o.italic = true → ro.italic = true) ∧
      (o.hyperlink.isSome = true → ro.hyperlink.isSome = true) := by
  match t with
  | .strong toks _ =>
      simp only [runsOfToken] at hr
      obtain ⟨ro, h1, h2, h3, h4⟩ := options_mono_parseTextRuns toks _ r hr
      exact ⟨ro, h1, fun _ => h2 rfl, h3, h4⟩
  | .em toks _ =>
      simp only [runsOfToken] at hr
      obtain ⟨ro, h1, h2, h3, h4⟩ := options_mono_parseTextRuns toks _ r hr
      exact ⟨ro, h1, h2, fun _ => h3 rfl, h4⟩
  | .codespan s _ =>
      simp only [runsOfToken, List.mem_singleton] at hr
      subst hr
      exact ⟨_, rfl, fun h => h, fun h => h, fun h => h⟩
  | .link href title toks _ =>
      simp only [runsOfToken] at hr
      obtain ⟨ro, h1, h2, h3, h4⟩ := options_mono_parseTextRuns toks _ r hr
      exact ⟨ro, h1, h2, h3, fun _ => h4 rfl⟩
  | .text s none _ =>
      simp only [runsOfToken, List.mem_singleton] at hr
      subst hr
      exact ⟨o, rfl, fun h => h, fun h => h, fun h => h⟩
  | .text s (some toks) _ =>
      simp only [runsOfToken] at hr
      exact options_mono_parseTextRuns toks _ r hr
  | .other raw =>
      simp only [runsOfToken] at hr
      by_cases h : raw = ""
      · simp [h] at hr
      · simp only [h, if_neg, ite_false, List.mem_singleton] at hr
        subst hr
        exact ⟨o, rfl, fun h => h, fun h => h, fun h => h⟩

theorem options_mono_parseTextRuns (ts : List InlineToken) (o : TextOptions) (r : TextProps)
    (hr : r ∈ parseTextRuns ts o) :
    ∃ ro, r.options = some ro ∧ (o.bold = true → ro.bold = true) ∧
      (o.italic = true → ro.italic = true) ∧
      (o.hyperlink.isSome = true → ro.hyperlink.isSome = true) := by
  match ts with
  | [] => simp [parseTextRuns] at hr
  | t :: ts =>
      simp only [parseTextRuns, List.mem_append] at hr
      rcases hr with hr | hr
      · exact options_mono_runsOfToken t o r hr
      · exact options_mono_parseTextRuns ts o r hr

end

mutual

theorem options_upper_runsOfToken (t : InlineToken) (o : TextOptions) (r : TextProps)
    (hr : r ∈ runsOfToken t o) :
    (hasStrongTok t = false → o.bold = false → optBold r.options = false) ∧
    (hasEmTok t = false → o.italic = false → optItalic r.options = false) := by
  match t with
  | .strong toks _ =>
      simp only [runsOfToken] at hr
      refine ⟨fun hs => by simp [hasStrongTok] at hs, fun he hi => ?_⟩
      simp only [hasEmTok] at he
      exact (options_upper_parseTextRuns toks _ r hr).2 he hi
  | .em toks _ =>
      simp only [runsOfToken] at hr
      refine ⟨fun hs hb => ?_, fun he => by simp [hasEmTok] at he⟩
      simp only [hasStrongTok] at hs
      exact (options_upper_parseTextRuns toks _ r hr).1 hs hb
  | .codespan s _ =>
      simp only [runsOfToken, List.mem_singleton] at hr
      subst hr
      exact ⟨fun _ hb => hb, fun _ hi => hi⟩
  | .link href title toks _ =>
      simp only [runsOfToken] at hr
      have h := options_upper_parseTextRuns toks _ r hr
      simp only [hasStrongTok, hasEmTok]
      exact h
  | .text s none _ =>
      simp only [runsOfToken, List.mem_singleton] at hr
      subst hr
      exact ⟨fun _ hb => hb, fun _ hi => hi⟩
  | .text s (some toks) _ =>
      simp only [runsOfToken] at hr
      have h := options_upper_parseTextRuns toks _ r hr
      simp only [hasStrongTok, hasEmTok]
      exact h
  | .other raw =>
      simp only [runsOfToken] at hr
      by_cases h : raw = ""
      · simp [h] at hr
      · simp only [h, ite_false, List.mem_singleton] at hr
        subst hr
        exact ⟨fun _ hb => hb, fun _ hi => hi⟩

theorem options_upper_parseTextRuns (ts : List InlineToken) (o : TextOptions) (r : TextProps)
    (hr : r ∈ parseTextRuns ts o) :
    (hasStrongToks ts = false → o.bold = false → optBold r.options = false) ∧
    (hasEmToks ts = false → o.italic = false → optItalic r.options = false) := by
  match ts with
  | [] => simp [parseTextRuns] at hr
  | t :: ts =>
      simp only [parseTextRuns, List.mem_append] at hr
      rcases hr with hr | hr
      · have h := options_upper_runsOfToken t o r hr
        constructor
        · intro hs hb
          simp only [hasStrongToks, Bool.or_eq_false_iff] at hs
          exact h.1 hs.1 hb
        · intro he hi
          simp only [hasEmToks, Bool.or_eq_false_iff] at he
          exact h.2 he.1 hi
      · have h := options_upper_parseTextRuns ts o r hr
        constructor
        · intro hs hb
          simp only [hasStrongToks, Bool.or_eq_false_iff] at hs
          exact h.1 hs.2 hb
        · intro he hi
          simp only [hasEmToks, Bool.or_eq_false_iff] at he
          exact h.2 he.2 hi

end

/-! ## Slide model: data types -/

/-- The `LocalShapeType` enum: its members are string constants, and
`OVAL` and `ELLIPSE` are both the string `'ellipse'` (the PptxGenJS library
expects `'ellipse'` for ovals). -/
def ShapeTypeRECTANGLE : String := "rect"

/-- `LocalShapeType.OVAL = 'ellipse'`. -/
def ShapeTypeOVAL : String := "ellipse"

/-- `LocalShapeType.ELLIPSE = 'ellipse'`. -/
def ShapeTypeELLIPSE : String := "ellipse"

/-- `LocalShapeType.LINE = 'line'`. -/
def ShapeTypeLINE : String := "line"

/-- `LocalShapeType.TRIANGLE = 'triangle'`. -/
def ShapeTypeTRIANGLE : String := "triangle"

/-- A value the JS property read `shapeNameMap[shapeName]` can produce:
one of the shape type strings stored under the object's five own keys, or
an inherited member of `Object.prototype` (a function or object — truthy,
but not a shape type string) reached through the prototype chain. -/
inductive ShapeVal where
  | str (s : String)
  | protoMember (name : String)
deriving DecidableEq, Repr

/-- The own property names of `Object.prototype`, which a plain object
literal inherits: reading any of them off `shapeNameMap` yields a truthy
function or object, never `undefined`. -/
def objectProtoKeys : List String :=
  ["constructor", "hasOwnProperty", "isPrototypeOf", "propertyIsEnumerable",
   "toLocaleString", "toString", "valueOf", "__defineGetter__", "__defineSetter__",
   "__lookupGetter__", "__lookupSetter__", "__proto__"]

/-- `shapeNameMap[shapeName]` with JS property-read semantics: the object's
five own keys first, then the inherited `Object.prototype` members (truthy
non-shape values), and `none` (`undefined`, falsy) for everything else. -/
def shapeNameMap (s : String) : Option ShapeVal :=
  if s = "rect" then some (.str ShapeTypeRECTANGLE)
  else if s = "oval" then some (.str ShapeTypeOVAL)
  else if s = "ellipse" then some (.str ShapeTypeELLIPSE)
  else if s = "line" then some (.str ShapeTypeLINE)
  else if s = "triangle" then some (.str ShapeTypeTRIANGLE)
  else if s ∈ objectProtoKeys then some (.protoMember s)
  else none

/-- The JSON property bag of a shape paragraph (`PptxGenJS.ShapeProps`).
Only the keys the layout engine consults (`x`, `y`, `w`, `h`) are modelled
individually, as optional numbers; `fill` stands for the rest of the bag. -/
structure ShapeOptions where
  x : Option ℚ := none
  y : Option ℚ := none
  w : Option ℚ := none
  h : Option ℚ := none
  fill : Option String := none
deriving DecidableEq, Repr

/-- One piece of slide content (`SlideElement` in the source). -/
inductive SlideElement where
  | textBlock (runs : List TextProps)
  | image (href : String) (alt : String)
  | table (headers : List String) (rows : List (List String))
  | shape (shape : ShapeVal) (options : ShapeOptions)
  | columnBreak
deriving DecidableEq, Repr

/-- A slide's title, its elements in reading order, and optional notes. -/
structure SlideData where
  title : String
  elements : List SlideElement
  notes : Option String := none
deriving DecidableEq, Repr

/-- One list item of a `marked` list token: its task/checked markers and its
inline token tree. -/
structure ListItem where
  task : Bool := false
  checked : Bool := false
  tokens : List InlineToken
deriving Repr

/-- Block-level tokens of the `marked` lexer, as consumed by `parseSlides`.
Table cells are carried as their plain `text` (the only property read), and
`other` covers every token type the `switch` ignores. -/
inductive BlockToken where
  | heading (depth : Nat) (text : String)
  | paragraph (text : String) (tokens : List InlineToken)
  | list (items : List ListItem)
  | table (header : List String) (rows : List (List String))
  | hr
  | other
deriving Repr

/-! ## String matchers

The source classifies paragraph text with three anchored regular
expressions and `String.prototype.trim`; they are implemented here
character-by-character with JS semantics (`\s` is the JS whitespace class,
`.` matches anything but a line terminator, `(.*)` is greedy with
backtracking). -/

/-- The JS whitespace class `\\s` (also the class trimmed by `trim()`), by
code point: TAB, LF, VT, FF, CR, SP, NBSP, Ogham space, the U+2000 range,
LS, PS, NNBSP, MMSP, ideographic space, and the BOM. -/
def isJsWs (c : Char) : Bool :=
  c = ' ' || c = '\t' || c = '\n' || c.val = 0x0b || c.val = 0x0c || c = '\r' ||
  c.val = 0xa0 || c.val = 0x1680 || (0x2000 ≤ c.val && c.val ≤ 0x200A) ||
  c.val = 0x2028 || c.val = 0x2029 || c.val = 0x202F || c.val = 0x205F ||
  c.val = 0x3000 || c.val = 0xFEFF

/-- A JS line terminator: what `.` does not match (LF, CR, LS, PS). -/
def isLineTerm (c : Char) : Bool :=
  c = '\n' || c = '\r' || c.val = 0x2028 || c.val = 0x2029

/-- Drop trailing characters satisfying `p`. -/
def dropTrailing (p : Char → Bool) (cs : List Char) : List Char :=
  (cs.reverse.dropWhile p).reverse

/-- `String.prototype.trim`: strip leading and trailing JS whitespace. -/
def jsTrim (s : String) : String :=
  ⟨dropTrailing isJsWs (s.data.dropWhile isJsWs)⟩

/-- `text.match(/^>\s*Note:\s*(.*)/)`: the captured group, or `none` when the
pattern does not match. -/
def noteCapture (text : String) : Option String :=
  match text.data with
  | '>' :: rest =>
    let r1 := rest.dropWhile isJsWs
    if r1.take 5 = "Note:".data then
      let r2 := (r1.drop 5).dropWhile isJsWs
      some ⟨r2.takeWhile (fun c => !isLineTerm c)⟩
    else none
  | _ => none

/-- `txt.match(/^!\[([^\]]*)\]\(([^)]+)\)$/)`: the two captured groups
(alt text, href), or `none`. -/
def imgCapture (txt : String) : Option (String × String) :=
  match txt.data with
  | '!' :: '[' :: rest =>
    let a := rest.takeWhile (fun c => c ≠ ']')
    match rest.dropWhile (fun c => c ≠ ']') with
    | ']' :: '(' :: rest2 =>
      let b := rest2.takeWhile (fun c => c ≠ ')')
      if b = [] then none
      else
        match rest2.dropWhile (fun c => c ≠ ')') with
        | [')'] => some (⟨a⟩, ⟨b⟩)
        | _ => none
    | _ => none
  | _ => none

/-- One backtracking attempt of `(.*)\]\((.*)\)$` that splits at the current
position: the remainder must start with `](`, end with `)`, and hold no line
terminator in between. -/
def splitHere (cs : List Char) : Option (List Char × List Char) :=
  match cs with
  | ']' :: '(' :: rest =>
    match rest.reverse with
    | ')' :: revq =>
      let q := revq.reverse
      if q.all (fun c => !isLineTerm c) then some ([], q) else none
    | _ => none
  | _ => none

/-- Greedy matcher for `(.*)\]\((.*)\)$`: the first group extends as far as
possible (over non-line-terminator characters), backtracking to the split
nearest the end that completes the match. -/
def greedyTail : List Char → Option (List Char × List Char)
  | [] => none
  | c :: cs =>
    let ext := if isLineTerm c then none
               else (greedyTail cs).map (fun pq => (c :: pq.1, pq.2))
    match ext with
    | some r => some r
    | none => splitHere (c :: cs)

/-- `txt.match(/^!shape\[(.*)\]\((.*)\)$/)`: the two captured groups
(shape name, options text), or `none`. -/
def shapeCapture (txt : String) : Option (String × String) :=
  if txt.data.take 7 = "!shape[".data then
    (greedyTail (txt.data.drop 7)).map (fun pq => (⟨pq.1⟩, ⟨pq.2⟩))
  else none

/-! ## Slide model builder -/

/-- The mutable state of `parseSlides`: the finalized slides, the current
slide under construction, and the `console.error` log. -/
structure ParseState where
  slides : List SlideData := []
  current : Option SlideData := none
  diagnostics : List String := []
deriving DecidableEq, Repr

/-- The checked/unchecked glyph prepended to a task item: the source literals
are `'☑️ '` (U+2611 U+FE0F SPACE) and `'☐ '` (U+2610 SPACE). -/
def taskBox (checked : Bool) : String :=
  if checked then "☑️ " else "☐ "

/-- The body of the per-item loop of the `list` arm: resolve the item's
inline tokens and, when at least one run results, append one `textBlock`
decorated by the task glyph or the bullet flag. -/
def listItemElements (item : ListItem) : List SlideElement :=
  match parseTextRuns item.tokens TextOptions.empty with
  | [] => []
  | r :: rest =>
    if item.task then
      if r.text ≠ "" then
        [.textBlock ({ r with text := taskBox item.checked ++ r.text } :: rest)]
      else
        [.textBlock ({ text := taskBox item.checked, options := none } :: r :: rest)]
    else
      [.textBlock ({ r with options := some { r.options.getD {} with bullet := true } } :: rest)]

/-- One step of the `parseSlides` token loop (the `switch` over block token
types), parameterized by the external JSON parser `j`. -/
def parseToken (j : String → Option ShapeOptions) (s : ParseState) (t : BlockToken) :
    ParseState :=
  match t with
  | .heading depth text =>
    if depth = 1 then
      { s with slides := s.slides ++ s.current.toList,
               current := some { title := text, elements := [] } }
    else s
  | .paragraph text toks =>
    match s.current with
    | none => s
    | some c =>
      match noteCapture text with
      | some captured => { s with current := some { c with notes := some (jsTrim captured) } }
      | none =>
        let txt := jsTrim text
        match imgCapture txt with
        | some (alt, href) =>
          { s with current := some { c with elements := c.elements ++ [.image href alt] } }
        | none =>
          match shapeCapture txt with
          | some (shapeName, optText) =>
            match shapeNameMap shapeName with
            | none =>
              { s with diagnostics :=
                  s.diagnostics ++ ["[ERROR] Invalid shape name: " ++ shapeName] }
            | some shapeType =>
              match j optText with
              | none =>
                { s with diagnostics :=
                    s.diagnostics ++ ["[ERROR] Invalid shape syntax: " ++ txt] }
              | some options =>
                let c2 := { c with elements := c.elements ++ [.shape shapeType options] }
                { s with current := some c2 }
          | none =>
            match parseTextRuns toks TextOptions.empty with
            | [] => s
            | r :: rest =>
              let c2 := { c with elements := c.elements ++ [.textBlock (r :: rest)] }
              { s with current := some c2 }
  | .list items =>
    match s.current with
    | none => s
    | some c =>
      let c2 := { c with elements := c.elements ++ items.flatMap listItemElements }
      { s with current := some c2 }
  | .table header rows =>
    match s.current with
    | none => s
    | some c =>
      { s with current := some { c with elements := c.elements ++ [.table header rows] } }
  | .hr =>
    match s.current with
    | none => s
    | some c => { s with current := some { c with elements := c.elements ++ [.columnBreak] } }
  | .other => s

/-- Fold the token loop over a token stream from a given state. -/
def parseTokens (j : String → Option ShapeOptions) (ts : List BlockToken) (s : ParseState) :
    ParseState :=
  ts.foldl (parseToken j) s

/-- `parseSlides`: run the loop from the empty state and finalize the
trailing current slide; returns the slide list and the diagnostic log. -/
def parseSlides (j : String → Option ShapeOptions) (ts : List BlockToken) :
    List SlideData × List String :=
  let s := parseTokens j ts {}
  (s.slides ++ s.current.toList, s.diagnostics)

/-! ## Layout engine -/

/-- Standard 16:9 slide height. -/
def slideHeight : ℚ := 5.625

/-- Fixed bottom margin. -/
def bottomMargin : ℚ := 0.25

/-- A call made on the output slide object, with its absolute box:
`addText`, `addImage`, `addTable` or `addShape`. -/
inductive Placed where
  | text (runs : List TextProps) (x y w h : ℚ)
  | image (path : String) (x y w h : ℚ)
  | table (data : List (List String)) (x y w : ℚ)
  | shape (shape : ShapeVal) (x y w : ℚ) (h : Option ℚ)
deriving DecidableEq, Repr

/-- The y coordinate at which an element was placed. -/
def placedY : Placed → ℚ
  | .text _ _ y _ _ => y
  | .image _ _ y _ _ => y
  | .table _ _ y _ => y
  | .shape _ _ y _ _ => y

/-- `estimatedLines`: one plus the number of runs whose options carry a
truthy `breakLine` (a `reduce` with initial accumulator 1). -/
def estimatedLines (runs : List TextProps) : ℚ :=
  runs.foldl (fun acc r => acc + (if (r.options.getD {}).breakLine then 1 else 0)) 1

/-- The cursor advance of a placed shape: `(finalOptions.h as number || 1)`
plus fixed spacing; a present-but-zero `h` is falsy and falls back to 1. -/
def shapeHeightEff (h : Option ℚ) : ℚ :=
  match h with
  | some v => if v = 0 then 1 else v
  | none => 1

/-- `renderElements(slide, elems, x, y, w)`: place the elements of one
column top-to-bottom, stopping when the remaining vertical space is at or
below the usable threshold; returns the placements, the final y offset, and
the (empty) diagnostic log of this loop. -/
def renderElements : List SlideElement → ℚ → ℚ → ℚ → List Placed × ℚ × List String
  | [], _, yOffset, _ => ([], yOffset, [])
  | el :: rest, x, yOffset, w =>
    let remainingHeight := slideHeight - yOffset - bottomMargin
    if remainingHeight ≤ 0.1 then ([], yOffset, [])
    else
      match el with
      | .textBlock runs =>
        let estimatedHeight := min remainingHeight (estimatedLines runs * 0.5)
        let r := renderElements rest x (yOffset + estimatedHeight + 0.1) w
        (.text runs x yOffset w estimatedHeight :: r.1, r.2)
      | .image href _ =>
        let r := renderElements rest x (yOffset + 3.2) w
        (.image href x yOffset w 3 :: r.1, r.2)
      | .table headers rows =>
        let r := renderElements rest x (yOffset + rows.length * 0.5 + 0.5) w
        (.table (headers :: rows) x yOffset w :: r.1, r.2)
      | .shape ty opts =>
        let finalX := opts.x.getD x
        let finalW := opts.w.getD w
        let r := renderElements rest x (yOffset + shapeHeightEff opts.h + 0.2) w
        (.shape ty finalX yOffset finalW opts.h :: r.1, r.2)
      | .columnBreak => renderElements rest x yOffset w

/-- One laid-out column: its fixed origin and width, the element slice it
was given, and the output of `renderElements` for it. -/
structure BuiltColumn where
  x : ℚ
  w : ℚ
  elems : List SlideElement
  placed : List Placed
  endY : ℚ
  diags : List String
deriving DecidableEq, Repr

/-- One slide of `buildPptx` output: the fixed title box, the notes, and the
rendered columns in call order. -/
structure BuiltSlide where
  title : String
  titleBox : ℚ × ℚ × ℚ × ℚ
  notes : Option String
  columns : List BuiltColumn
deriving DecidableEq, Repr

/-- Render one column slice into a `BuiltColumn`. -/
def buildColumn (elems : List SlideElement) (x y w : ℚ) : BuiltColumn :=
  let r := renderElements elems x y w
  { x := x, w := w, elems := elems, placed := r.1, endY := r.2.1, diags := r.2.2 }

/-- Whether an element is the `columnBreak` sentinel. -/
def isColumnBreak : SlideElement → Bool
  | .columnBreak => true
  | _ => false

/-- The per-slide body of `buildPptx`: fixed title box, then either one
full-width column (no `columnBreak` found) or two columns split at the first
`columnBreak`. -/
def buildSlide (sd : SlideData) : BuiltSlide :=
  let yPos : ℚ := 1.2
  { title := sd.title
    titleBox := (0.5, 0.3, 9.0, 0.75)
    notes := sd.notes
    columns :=
      match sd.elements.findIdx? isColumnBreak with
      | none => [buildColumn sd.elements 0.5 yPos 9.0]
      | some breakIdx =>
        [buildColumn (sd.elements.take breakIdx) 0.5 yPos 4.5,
         buildColumn (sd.elements.drop (breakIdx + 1)) 5.2 yPos 4.5] }

/-- `buildPptx` over a slide list (the file write is external). -/
def buildPptx (slides : List SlideData) : List BuiltSlide :=
  slides.map buildSlide

/-! ## Claim C3: inline run resolution -/

/-- **C3.** For every inline token tree, the resolver returns a flat ordered
run sequence whose concatenated `text` fields reconstruct the rendered text;
`strong` and `em` tokens contribute no run of their own, only the bold
(resp. italic) flag for their descendants; inherited bold/italic/hyperlink
span flags persist into every emitted run (every run's style contains the
union of its ancestor spans), and a run is bold (resp. italic) only when an
ancestor `strong` (resp. `em`) span or the inherited context supplies the
flag. -/
theorem C3_inline_run_resolution :
    (∀ ts o, runsText (parseTextRuns ts o) = renderToks ts) ∧
    (∀ toks raw o,
      runsOfToken (.strong toks raw) o = parseTextRuns toks { o with bold := true } ∧
      runsOfToken (.em toks raw) o = parseTextRuns toks { o with italic := true }) ∧
    (∀ ts o r, r ∈ parseTextRuns ts o →
      ∃ ro, r.options = some ro ∧ (o.bold = true → ro.bold = true) ∧
        (o.italic = true → ro.italic = true) ∧
        (o.hyperlink.isSome = true → ro.hyperlink.isSome = true)) ∧
    (∀ ts o r, r ∈ parseTextRuns ts o → hasStrongToks ts = false → o.bold = false →
      optBold r.options = false) ∧
    (∀ ts o r, r ∈ parseTextRuns ts o → hasEmToks ts = false → o.italic = false →
      optItalic r.options = false) :=
  ⟨runsText_parseTextRuns,
   fun _ _ _ => ⟨rfl, rfl⟩,
   options_mono_parseTextRuns,
   fun ts o r h hs hb => (options_upper_parseTextRuns ts o r h).1 hs hb,
   fun ts o r h he hi => (options_upper_parseTextRuns ts o r h).2 he hi⟩

/-- Witness for C3 at the spec's own example `**bold and [a link](x) here**`
and at a one-token tree under a fully-styled inherited context. -/
theorem C3_inline_run_resolution_witness :
    runsText (parseTextRuns
      [InlineToken.strong
        [InlineToken.text "bold and " none "bold and ",
         InlineToken.link "x" none [InlineToken.text "a link" none "a link"] "[a link](x)",
         InlineToken.text " here" none " here"] "**bold and [a link](x) here**"]
      TextOptions.empty) = "bold and a link here" ∧
    (∃ ro, (TextProps.mk "x"
        (some ⟨true, true, none, some ⟨"u", "u"⟩, false, false⟩)).options = some ro ∧
      ((⟨true, true, none, some ⟨"u", "u"⟩, false, false⟩ : TextOptions).bold = true →
        ro.bold = true) ∧
      ((⟨true, true, none, some ⟨"u", "u"⟩, false, false⟩ : TextOptions).italic = true →
        ro.italic = true) ∧
      ((⟨true, true, none, some ⟨"u", "u"⟩, false, false⟩ :
          TextOptions).hyperlink.isSome = true → ro.hyperlink.isSome = true)) ∧
    optBold (TextProps.mk "x" (some TextOptions.empty)).options = false :=
  ⟨(C3_inline_run_resolution.1 _ TextOptions.empty).trans (by decide),
   C3_inline_run_resolution.2.2.1 [InlineToken.text "x" none "x"]
     ⟨true, true, none, some ⟨"u", "u"⟩, false, false⟩ _ (by decide),
   C3_inline_run_resolution.2.2.2.1 [InlineToken.text "x" none "x"]
     TextOptions.empty _ (by decide) (by decide) rfl⟩

/-! ## Claim C6: unrecognized-token fallback -/

/-- **C6 counterexample.** An unrecognized token nested inside a `strong`
span emits its raw text verbatim, but the resulting run is *not* unstyled:
it carries the inherited bold flag, refuting "a single unstyled run". -/
theorem C6_unstyled_fallback_cex :
    parseTextRuns [InlineToken.strong [InlineToken.other "x"] "**x**"] TextOptions.empty =
      [{ text := "x", options := some { TextOptions.empty with bold := true } }] ∧
    some { TextOptions.empty with bold := true } ≠ some TextOptions.empty := by
  constructor
  · decide
  · decide

/-- **C6 (amended).** For every inline token of an unrecognized type, the
resolver emits its raw source text verbatim as a single run carrying exactly
the inherited style context — unstyled precisely when that context is the
empty options object, as at the top-level call — if the raw text is
non-empty, and emits nothing if it is empty; hence no non-empty raw text is
lost. -/
theorem C6_unrecognized_fallback :
    (∀ raw cur ts, parseTextRuns (.other raw :: ts) cur =
      (if raw = "" then [] else [{ text := raw, options := some cur }]) ++
        parseTextRuns ts cur) ∧
    (∀ raw, raw ≠ "" →
      parseTextRuns [.other raw] TextOptions.empty =
        [{ text := raw, options := some TextOptions.empty }]) := by
  constructor
  · intro raw cur ts
    simp [parseTextRuns, runsOfToken]
  · intro raw h
    simp [parseTextRuns, runsOfToken, h]

/-- Witness for C6 (amended) at the non-empty raw text `"~x~"`. -/
theorem C6_unrecognized_fallback_witness :
    parseTextRuns [.other "~x~"] TextOptions.empty =
      [{ text := "~x~", options := some TextOptions.empty }] :=
  C6_unrecognized_fallback.2 "~x~" (by decide)

/-! ## Claim C2: column partitioning -/

theorem findIdx?_prefix {α : Type} (p : α → Bool) (pre : List α) (b : α) (post : List α)
    (hpre : ∀ x ∈ pre, p x = false) (hb : p b = true) :
    (pre ++ b :: post).findIdx? p = some pre.length := by
  induction pre with
  | nil => simp [hb]
  | cons x xs ih =>
      have hx : p x = false := hpre x (List.mem_cons_self x xs)
      have ih' := ih fun y hy => hpre y (List.mem_cons_of_mem x hy)
      simp only [List.cons_append, List.findIdx?_cons, hx, Bool.false_eq_true, if_false,
        List.findIdx?_succ, ih', Option.map_some', List.length_cons]

/-- **C2.** For every slide, the layout engine partitions the elements at the
first `columnBreak` when one is present — elements before it become column 1
(origin 0.5, width 4.5) and all elements after it, including any past later
breaks, become column 2 (origin 5.2, width 4.5), with no third column — and
with no `columnBreak` all elements form a single full-width column (origin
0.5, width 9.0); element order within each column is slide order. -/
theorem C2_column_partition :
    (∀ sd : SlideData, (∀ e ∈ sd.elements, isColumnBreak e = false) →
      (buildSlide sd).columns.map (fun c => (c.x, c.w, c.elems)) =
        [((0.5 : ℚ), (9.0 : ℚ), sd.elements)]) ∧
    (∀ (sd : SlideData) (pre post : List SlideElement),
      sd.elements = pre ++ SlideElement.columnBreak :: post →
      (∀ e ∈ pre, isColumnBreak e = false) →
      (buildSlide sd).columns.map (fun c => (c.x, c.w, c.elems)) =
        [((0.5 : ℚ), (4.5 : ℚ), pre), ((5.2 : ℚ), (4.5 : ℚ), post)]) := by
  constructor
  · intro sd h
    have hnone : sd.elements.findIdx? isColumnBreak = none :=
      List.findIdx?_eq_none_iff.mpr h
    simp [buildSlide, buildColumn, hnone]
  · intro sd pre post helems hpre
    have hsome : sd.elements.findIdx? isColumnBreak = some pre.length := by
      rw [helems]
      exact findIdx?_prefix isColumnBreak pre SlideElement.columnBreak post hpre rfl
    have htake : sd.elements.take pre.length = pre := by
      rw [helems]; exact List.take_left' rfl
    have hdrop : sd.elements.drop (pre.length + 1) = post := by
      rw [helems, show pre ++ SlideElement.columnBreak :: post =
        (pre ++ [SlideElement.columnBreak]) ++ post by simp]
      exact List.drop_left' (by simp)
    simp [buildSlide, buildColumn, hsome, htake, hdrop]

/-- Witness for C2: the slide `[A, B, ColumnBreak, C]` splits into columns
`[A, B]` and `[C]`, and a break-free slide keeps one full-width column. -/
theorem C2_column_partition_witness :
    (buildSlide (SlideData.mk "t"
        [SlideElement.image "a.png" "A", SlideElement.image "b.png" "B",
         SlideElement.columnBreak, SlideElement.image "c.png" "C"] none)).columns.map
        (fun c => (c.x, c.w, c.elems)) =
      [((0.5 : ℚ), (4.5 : ℚ), [SlideElement.image "a.png" "A", SlideElement.image "b.png" "B"]),
       ((5.2 : ℚ), (4.5 : ℚ), [SlideElement.image "c.png" "C"])] ∧
    (buildSlide (SlideData.mk "t" [SlideElement.image "a.png" "A"] none)).columns.map
        (fun c => (c.x, c.w, c.elems)) =
      [((0.5 : ℚ), (9.0 : ℚ), [SlideElement.image "a.png" "A"])] :=
  ⟨C2_column_partition.2 _ [SlideElement.image "a.png" "A", SlideElement.image "b.png" "B"]
      [SlideElement.image "c.png" "C"] rfl (by decide),
   C2_column_partition.1 _ (by decide)⟩

/-! ## Claim C4: slide count and dropped leading content -/

/-- Whether a block token is a depth-1 heading (the only token kind that
starts a slide). -/
def isH1 : BlockToken → Bool
  | .heading depth _ => depth == 1
  | _ => false

theorem parseToken_nonH1 (j : String → Option ShapeOptions) (s : ParseState) (t : BlockToken)
    (ht : isH1 t = false) :
    (parseToken j s t).slides = s.slides ∧
      (parseToken j s t).current.isSome = s.current.isSome := by
  cases t with
  | heading depth text =>
      have hd : ¬depth = 1 := by simpa [isH1] using ht
      simp [parseToken, hd]
  | paragraph text toks =>
      cases hc : s.current with
      | none => simp [parseToken, hc]
      | some c =>
          simp only [parseToken, hc]
          cases hn : noteCapture text with
          | some cap => simp
          | none =>
            cases himg : imgCapture (jsTrim text) with
            | some ab =>
                cases ab with
                | mk alt href => simp
            | none =>
              cases hsm : shapeCapture (jsTrim text) with
              | some nameopt =>
                cases nameopt with
                | mk nm opt =>
                  cases hm : shapeNameMap nm with
                  | none => simp [hm]
                  | some ty =>
                    cases hj : j opt with
                    | none => simp [hm, hj]
                    | some o => simp [hm, hj]
              | none =>
                cases hruns : parseTextRuns toks TextOptions.empty with
                | nil => simp [hc]
                | cons r rest => simp
  | list items =>
      cases hc : s.current with
      | none => simp [parseToken, hc]
      | some c => simp [parseToken, hc]
  | table header rows =>
      cases hc : s.current with
      | none => simp [parseToken, hc]
      | some c => simp [parseToken, hc]
  | hr =>
      cases hc : s.current with
      | none => simp [parseToken, hc]
      | some c => simp [parseToken, hc]
  | other => simp [parseToken]

theorem parseToken_skip (j : String → Option ShapeOptions) (s : ParseState) (t : BlockToken)
    (hc : s.current = none) (ht : isH1 t = false) : parseToken j s t = s := by
  cases t with
  | heading depth text =>
      have hd : ¬depth = 1 := by simpa [isH1] using ht
      simp [parseToken, hd]
  | paragraph text toks => simp [parseToken, hc]
  | list items => simp [parseToken, hc]
  | table header rows => simp [parseToken, hc]
  | hr => simp [parseToken, hc]
  | other => simp [parseToken]

theorem parseTokens_skip (j : String → Option ShapeOptions) (pre : List BlockToken)
    (s : ParseState) (hc : s.current = none) (h : ∀ t ∈ pre, isH1 t = false) :
    parseTokens j pre s = s := by
  induction pre with
  | nil => rfl
  | cons t ts ih =>
      have h1 : parseToken j s t = s := parseToken_skip j s t hc (h t (List.mem_cons_self t ts))
      show parseTokens j ts (parseToken j s t) = s
      rw [h1]
      exact ih fun u hu => h u (List.mem_cons_of_mem t hu)

theorem parseTokens_slideCount (j : String → Option ShapeOptions) (ts : List BlockToken) :
    ∀ s : ParseState,
      (parseTokens j ts s).slides.length + (parseTokens j ts s).current.toList.length =
        s.slides.length + s.current.toList.length + ts.countP isH1 := by
  induction ts with
  | nil => intro s; simp [parseTokens]
  | cons t ts ih =>
      intro s
      show (parseTokens j ts (parseToken j s t)).slides.length +
          (parseTokens j ts (parseToken j s t)).current.toList.length = _
      rw [ih (parseToken j s t)]
      by_cases ht : isH1 t = true
      · have hstep : (parseToken j s t).slides.length +
            (parseToken j s t).current.toList.length =
            s.slides.length + s.current.toList.length + 1 := by
          cases t with
          | heading depth text =>
              have hd : depth = 1 := by simpa [isH1] using ht
              subst hd
              cases hcur : s.current <;> simp [parseToken, hcur]
          | paragraph text toks => simp [isH1] at ht
          | list items => simp [isH1] at ht
          | table header rows => simp [isH1] at ht
          | hr => simp [isH1] at ht
          | other => simp [isH1] at ht
        rw [hstep]
        simp only [List.countP_cons, ht, if_true]
        omega
      · have ht' : isH1 t = false := by simpa using ht
        obtain ⟨h1, h2⟩ := parseToken_nonH1 j s t ht'
        have h2' : (parseToken j s t).current.toList.length =
            s.current.toList.length := by
          cases hc1 : (parseToken j s t).current <;> cases hc2 : s.current <;>
            simp [hc1, hc2] at h2 ⊢
        rw [h1, h2']
        simp only [List.countP_cons, ht', Bool.false_eq_true, if_false]
        omega

/-- **C4.** For every document token stream, the number of slides emitted
equals the number of depth-1 heading tokens, and tokens preceding the first
depth-1 heading contribute nothing: parsing is unchanged when they are
removed (no element in any slide, and no diagnostic either). -/
theorem C4_slide_count :
    (∀ (j : String → Option ShapeOptions) (ts : List BlockToken),
      (parseSlides j ts).1.length = ts.countP isH1) ∧
    (∀ (j : String → Option ShapeOptions) (pre post : List BlockToken),
      (∀ t ∈ pre, isH1 t = false) →
      parseSlides j (pre ++ post) = parseSlides j post) := by
  constructor
  · intro j ts
    have h := parseTokens_slideCount j ts {}
    simp only [parseSlides, List.length_append]
    simpa using h
  · intro j pre post h
    have hsplit : parseTokens j (pre ++ post) {} = parseTokens j post {} := by
      show (pre ++ post).foldl (parseToken j) {} = _
      rw [List.foldl_append]
      show parseTokens j post (parseTokens j pre {}) = _
      rw [parseTokens_skip j pre {} rfl h]
    simp [parseSlides, hsplit]

/-- Witness for C4: a document with a leading paragraph and a depth-2
heading before its single depth-1 heading yields exactly one slide, and
dropping the leading tokens leaves the parse unchanged. -/
theorem C4_slide_count_witness :
    (parseSlides (fun _ => none)
        [BlockToken.paragraph "hello" [InlineToken.text "hello" none "hello"],
         BlockToken.heading 2 "sub", BlockToken.heading 1 "T",
         BlockToken.table ["A", "B"] [["1", "2"]]]).1.length = 1 ∧
    parseSlides (fun _ => none)
        ([BlockToken.paragraph "hello" [InlineToken.text "hello" none "hello"],
          BlockToken.heading 2 "sub"] ++
         [BlockToken.heading 1 "T", BlockToken.table ["A", "B"] [["1", "2"]]]) =
      parseSlides (fun _ => none)
        [BlockToken.heading 1 "T", BlockToken.table ["A", "B"] [["1", "2"]]] :=
  ⟨(C4_slide_count.1 (fun _ => none) _).trans (by decide),
   C4_slide_count.2 (fun _ => none) _ _ (by decide)⟩

/-! ## Claim C5: task list items -/

/-- **C5 counterexample.** The claim's checked glyph is `"☑ "` (U+2611,
SPACE), but the source literal is `'☑️ '` (U+2611, U+FE0F, SPACE): a checked
task item whose first run is `"x"` yields the first-run text
`"☑️ x"`, not the claim's `"☑ x"`. -/
theorem C5_task_glyph_cex :
    (parseToken (fun _ => none) ⟨[], some ⟨"T", [], none⟩, []⟩
        (.list [⟨true, true, [.text "x" none "x"]⟩])).current =
      some ⟨"T", [.textBlock [⟨"☑️ x", some TextOptions.empty⟩]], none⟩ ∧
    ("☑️ x" : String) ≠ "☑ x" := by
  exact ⟨by decide, by decide⟩

/-- **C5 (amended).** For every task list item processed while a current
slide exists, the builder prepends a fixed glyph run — `"☑️ "` (U+2611
U+FE0F SPACE) when checked, `"☐ "` when unchecked — merging the glyph into
the first run's text when the first run's text is non-empty and otherwise
inserting a new leading run, and appends the result as its own separate
`textBlock` element. -/
theorem C5_task_item (j : String → Option ShapeOptions) (s : ParseState) (c : SlideData)
    (item : ListItem) (r : TextProps) (rest : List TextProps)
    (hc : s.current = some c) (htask : item.task = true)
    (hruns : parseTextRuns item.tokens TextOptions.empty = r :: rest) :
    parseToken j s (.list [item]) =
      { s with current := some { c with elements := c.elements ++
          [SlideElement.textBlock
            (if r.text ≠ "" then
              { r with text := (if item.checked then "☑️ " else "☐ ") ++ r.text }
                :: rest
            else
              ⟨(if item.checked then "☑️ " else "☐ "), none⟩ :: r :: rest)] } } := by
  by_cases htext : r.text = "" <;>
    simp [parseToken, hc, listItemElements, hruns, htask, taskBox, htext]

/-- Witness for C5 (amended) at an unchecked task item with first run
`"x"`: the glyph merges into the first run, giving one `textBlock`. -/
theorem C5_task_item_witness :
    parseToken (fun _ => none) ⟨[], some ⟨"T", [], none⟩, []⟩
        (.list [⟨true, false, [.text "x" none "x"]⟩]) =
      ⟨[], some ⟨"T", [SlideElement.textBlock [⟨"☐ x", some TextOptions.empty⟩]], none⟩, []⟩ :=
  (C5_task_item (fun _ => none) _ _ ⟨true, false, [.text "x" none "x"]⟩
    ⟨"x", some TextOptions.empty⟩ [] rfl rfl (by decide)).trans (by decide)

/-! ## Claim C7: shape paragraph error handling -/

theorem dropTrailing_cons_of_not {p : Char → Bool} {x : Char} (xs : List Char)
    (hx : p x = false) : dropTrailing p (x :: xs) = x :: dropTrailing p xs := by
  simp only [dropTrailing, List.reverse_cons, List.dropWhile_append]
  by_cases h : (xs.reverse.dropWhile p).isEmpty
  · simp [h, List.dropWhile_cons, hx, List.isEmpty_iff.mp h]
  · simp [h]

theorem shapeCapture_data {txt : String} {pq : String × String}
    (h : shapeCapture txt = some pq) :
    txt.data = '!' :: 's' :: 'h' :: 'a' :: 'p' :: 'e' :: '[' :: txt.data.drop 7 := by
  by_cases h7 : txt.data.take 7 = "!shape[".data
  · conv_lhs => rw [← List.take_append_drop 7 txt.data]
    rw [h7]
    rfl
  · simp [shapeCapture, h7] at h

theorem imgCapture_of_shapeCapture {txt : String} {pq : String × String}
    (h : shapeCapture txt = some pq) : imgCapture txt = none := by
  obtain ⟨rest, hrest⟩ : ∃ r, txt.data = '!' :: 's' :: 'h' :: 'a' :: 'p' :: 'e' :: '[' :: r :=
    ⟨_, shapeCapture_data h⟩
  simp [imgCapture, hrest]

theorem noteCapture_of_shapeCapture {text : String} {pq : String × String}
    (h : shapeCapture (jsTrim text) = some pq) : noteCapture text = none := by
  have hd := shapeCapture_data h
  cases hdata : text.data with
  | nil => simp [noteCapture, hdata]
  | cons ch rest =>
      by_cases hch : ch = '>'
      · subst hch
        have htrim : (jsTrim text).data = '>' :: dropTrailing isJsWs rest := by
          simp only [jsTrim, hdata]
          rw [List.dropWhile_cons]
          norm_num [isJsWs]
          exact dropTrailing_cons_of_not rest (by decide)
        rw [htrim] at hd
        simp at hd
      · simp only [noteCapture, hdata]
        split
        · rename_i heq
          exact absurd (List.head_eq_of_cons_eq heq.symm).symm hch
        · rfl

/-- The error path the claim describes, where it does exist: for a shape
paragraph whose name is `undefined` on the whole lookup chain, or whose
options fail to parse, exactly one diagnostic is appended and nothing else
changes; the token loop proceeds to the next token as from any other
state. -/
theorem shapeErrorPathAtomic (j : String → Option ShapeOptions) (s : ParseState)
    (c : SlideData) (text : String) (toks : List InlineToken) (shapeName optText : String)
    (hc : s.current = some c)
    (hcap : shapeCapture (jsTrim text) = some (shapeName, optText))
    (hbad : shapeNameMap shapeName = none ∨ j optText = none) :
    (parseToken j s (.paragraph text toks) =
      { s with diagnostics := s.diagnostics ++
          [if shapeNameMap shapeName = none then "[ERROR] Invalid shape name: " ++ shapeName
           else "[ERROR] Invalid shape syntax: " ++ jsTrim text] }) ∧
    (∀ rest, parseTokens j (.paragraph text toks :: rest) s =
      parseTokens j rest (parseToken j s (.paragraph text toks))) := by
  refine ⟨?_, fun rest => rfl⟩
  have hnote := noteCapture_of_shapeCapture hcap
  have himg := imgCapture_of_shapeCapture hcap
  rcases hbad with hbad | hbad
  · simp [parseToken, hc, hnote, himg, hcap, hbad]
  · cases hm : shapeNameMap shapeName with
    | none => simp [parseToken, hc, hnote, himg, hcap, hm]
    | some ty => simp [parseToken, hc, hnote, himg, hcap, hm, hbad]

/-- The error path at work: `!shape[hexagon]({})` yields one "Invalid shape
name" diagnostic and leaves the current slide untouched, and a valid name
whose options fail to parse yields one "Invalid shape syntax" diagnostic. -/
theorem shapeErrorPathAtomic_example :
    parseToken (fun _ => none) ⟨[], some ⟨"T", [], none⟩, []⟩
        (.paragraph "!shape[hexagon](\x7b\x7d)" []) =
      ⟨[], some ⟨"T", [], none⟩, ["[ERROR] Invalid shape name: hexagon"]⟩ ∧
    parseToken (fun _ => none) ⟨[], some ⟨"T", [], none⟩, []⟩
        (.paragraph "!shape[rect](nonsense)" []) =
      ⟨[], some ⟨"T", [], none⟩, ["[ERROR] Invalid shape syntax: !shape[rect](nonsense)"]⟩ :=
  ⟨((shapeErrorPathAtomic (fun _ => none) _ _ "!shape[hexagon](\x7b\x7d)" [] "hexagon"
      "\x7b\x7d" rfl (by decide) (Or.inl (by decide))).1).trans (by decide),
   ((shapeErrorPathAtomic (fun _ => none) _ _ "!shape[rect](nonsense)" [] "rect"
      "nonsense" rfl (by decide) (Or.inr rfl)).1).trans (by decide)⟩

/-- **C7 (code bug).** At the failing input `!shape[toString]({})` with a
current slide, the claim requires a diagnostic and no appended element —
`toString` is not a key of the fixed five-name table — but the JS property
read `shapeNameMap[shapeName]` traverses the prototype chain and finds the
inherited `Object.prototype.toString` function, which is truthy, so
`if (!shapeType)` does not fire: no diagnostic is emitted and a shape
element carrying the junk value is appended to the current slide. The same
holds for every `Object.prototype` member name (`constructor`, `valueOf`,
`__proto__`, ...). -/
theorem C7_proto_name_bug :
    ("toString" : String) ∉ ["rect", "oval", "ellipse", "line", "triangle"] ∧
    parseToken (fun _ => some {}) ⟨[], some ⟨"T", [], none⟩, []⟩
        (.paragraph "!shape[toString](\x7b\x7d)" []) =
      ⟨[], some ⟨"T", [SlideElement.shape (ShapeVal.protoMember "toString") {}], none⟩,
       []⟩ := by
  exact ⟨by decide, by decide⟩

/-! ## Claim C9: oval and ellipse coincide -/

theorem splitHere_ne {c : Char} (l : List Char) (hch : c ≠ ']') :
    splitHere (c :: l) = none := by
  simp only [splitHere]
  split
  · rename_i rest heq
    exact absurd (List.head_eq_of_cons_eq heq) hch
  · rfl

theorem greedyTail_prefix (n t : List Char)
    (hn : ∀ c ∈ n, ¬c = ']' ∧ isLineTerm c = false) :
    greedyTail (n ++ t) = (greedyTail t).map (fun pq => (n ++ pq.1, pq.2)) := by
  induction n with
  | nil =>
      simp only [List.nil_append]
      cases greedyTail t <;> simp
  | cons c cs ih =>
      obtain ⟨hc1, hc2⟩ := hn c (List.mem_cons_self c cs)
      have ih' := ih fun x hx => hn x (List.mem_cons_of_mem c hx)
      cases hg : greedyTail t with
      | none =>
          have hni : greedyTail (cs ++ t) = none := by rw [ih', hg]; rfl
          simp only [List.cons_append, greedyTail, hc2, Bool.false_eq_true, if_false,
            List.append_eq, hni, Option.map_none', hg]
          exact splitHere_ne _ hc1
      | some pq =>
          have hni : greedyTail (cs ++ t) = some (cs ++ pq.1, pq.2) := by rw [ih', hg]; rfl
          simp [List.cons_append, greedyTail, hc2, List.append_eq, hni, hg]

theorem mk_ne_str {cs : List Char} {k : String} (h : cs ≠ k.data) :
    (⟨cs⟩ : String) ≠ k := fun he => h (congrArg String.data he)

theorem shapeNameMap_none (cs : List Char)
    (h1 : cs ≠ "rect".data) (h2 : cs ≠ "oval".data) (h3 : cs ≠ "ellipse".data)
    (h4 : cs ≠ "line".data) (h5 : cs ≠ "triangle".data)
    (hm : (⟨cs⟩ : String) ∉ objectProtoKeys) :
    shapeNameMap ⟨cs⟩ = none := by
  simp only [shapeNameMap]
  rw [if_neg (mk_ne_str h1), if_neg (mk_ne_str h2), if_neg (mk_ne_str h3),
    if_neg (mk_ne_str h4), if_neg (mk_ne_str h5), if_neg hm]

theorem shapeNameMap_oval_ne (c : Char) (p : List Char) :
    shapeNameMap ⟨'o' :: 'v' :: 'a' :: 'l' :: c :: p⟩ = none := by
  refine shapeNameMap_none _ (by simp) (by simp) (by simp) (by simp) (by simp) ?_
  intro hmem
  simp only [objectProtoKeys, List.mem_cons, List.not_mem_nil, or_false] at hmem
  rcases hmem with h | h | h | h | h | h | h | h | h | h | h | h <;>
    (have h2 := congrArg String.data h; simp at h2)

theorem shapeNameMap_ellipse_ne (c : Char) (p : List Char) :
    shapeNameMap ⟨'e' :: 'l' :: 'l' :: 'i' :: 'p' :: 's' :: 'e' :: c :: p⟩ = none := by
  refine shapeNameMap_none _ (by simp) (by simp) (by simp) (by simp) (by simp) ?_
  intro hmem
  simp only [objectProtoKeys, List.mem_cons, List.not_mem_nil, or_false] at hmem
  rcases hmem with h | h | h | h | h | h | h | h | h | h | h | h <;>
    (have h2 := congrArg String.data h; simp at h2)

theorem shapeNameMap_shift (p : List Char) :
    shapeNameMap ⟨'o' :: 'v' :: 'a' :: 'l' :: p⟩ =
      shapeNameMap ⟨'e' :: 'l' :: 'l' :: 'i' :: 'p' :: 's' :: 'e' :: p⟩ := by
  cases p with
  | nil => decide
  | cons c p' => rw [shapeNameMap_oval_ne, shapeNameMap_ellipse_ne]

theorem dropTrailing_last {p : Char → Bool} {x : Char} (l : List Char) (hx : p x = false) :
    dropTrailing p (l ++ [x]) = l ++ [x] := by
  simp [dropTrailing, List.dropWhile_cons, hx]

theorem jsTrim_of_bang_paren {text : String} (l : List Char)
    (hdata : text.data = '!' :: (l ++ [')'])) : jsTrim text = text := by
  have hb : isJsWs '!' = false := by decide
  have hp : isJsWs ')' = false := by decide
  have h1 : jsTrim text = ⟨'!' :: (l ++ [')'])⟩ := by
    simp only [jsTrim, hdata, List.dropWhile_cons, hb, Bool.false_eq_true, if_false]
    rw [dropTrailing_cons_of_not _ hb, dropTrailing_last _ hp]
  rw [h1]
  exact String.ext hdata.symm

theorem noteCapture_bang {text : String} {rest : List Char}
    (hdata : text.data = '!' :: rest) : noteCapture text = none := by
  simp [noteCapture, hdata]

theorem imgCapture_shape_data {text : String} {rest : List Char}
    (hdata : text.data = '!' :: 's' :: rest) : imgCapture text = none := by
  simp [imgCapture, hdata]

/-- Whether an element is a `shape` element. -/
def isShapeEl : SlideElement → Bool
  | .shape _ _ => true
  | _ => false

/-- The shape elements of the current slide under construction. -/
def currentShapes (s : ParseState) : List SlideElement :=
  match s.current with
  | some c => c.elements.filter isShapeEl
  | none => []

theorem data_shape_oval (o : String) :
    ("!shape[oval](" ++ o ++ ")").data =
      '!' :: 's' :: 'h' :: 'a' :: 'p' :: 'e' :: '[' ::
        ('o' :: 'v' :: 'a' :: 'l' :: (']' :: '(' :: (o.data ++ [')']))) := by
  have h1 : ("!shape[oval](").data =
      ['!', 's', 'h', 'a', 'p', 'e', '[', 'o', 'v', 'a', 'l', ']', '('] := by decide
  have h2 : (")" : String).data = [')'] := by decide
  rw [String.data_append, String.data_append, h1, h2]
  simp

theorem data_shape_ellipse (o : String) :
    ("!shape[ellipse](" ++ o ++ ")").data =
      '!' :: 's' :: 'h' :: 'a' :: 'p' :: 'e' :: '[' ::
        ('e' :: 'l' :: 'l' :: 'i' :: 'p' :: 's' :: 'e' :: (']' :: '(' :: (o.data ++ [')']))) := by
  have h1 : ("!shape[ellipse](").data =
      ['!', 's', 'h', 'a', 'p', 'e', '[', 'e', 'l', 'l', 'i', 'p', 's', 'e', ']', '('] := by
    decide
  have h2 : (")" : String).data = [')'] := by decide
  rw [String.data_append, String.data_append, h1, h2]
  simp

theorem shapeCapture_oval (o : String) :
    shapeCapture ("!shape[oval](" ++ o ++ ")") =
      (greedyTail (']' :: '(' :: (o.data ++ [')']))).map
        (fun pq => (⟨'o' :: 'v' :: 'a' :: 'l' :: pq.1⟩, ⟨pq.2⟩)) := by
  have hd := data_shape_oval o
  have h7 : ("!shape[oval](" ++ o ++ ")").data.take 7 = "!shape[".data := by rw [hd]; rfl
  have hdrop : ("!shape[oval](" ++ o ++ ")").data.drop 7 =
      'o' :: 'v' :: 'a' :: 'l' :: (']' :: '(' :: (o.data ++ [')'])) := by rw [hd]; rfl
  have hgp := greedyTail_prefix ['o', 'v', 'a', 'l'] (']' :: '(' :: (o.data ++ [')']))
    (by decide)
  simp only [shapeCapture, h7, if_true, hdrop]
  rw [show ('o' :: 'v' :: 'a' :: 'l' :: (']' :: '(' :: (o.data ++ [')']))) =
      ['o', 'v', 'a', 'l'] ++ (']' :: '(' :: (o.data ++ [')'])) from rfl, hgp]
  cases greedyTail (']' :: '(' :: (o.data ++ [')'])) <;> simp

theorem shapeCapture_ellipse (o : String) :
    shapeCapture ("!shape[ellipse](" ++ o ++ ")") =
      (greedyTail (']' :: '(' :: (o.data ++ [')']))).map
        (fun pq => (⟨'e' :: 'l' :: 'l' :: 'i' :: 'p' :: 's' :: 'e' :: pq.1⟩, ⟨pq.2⟩)) := by
  have hd := data_shape_ellipse o
  have h7 : ("!shape[ellipse](" ++ o ++ ")").data.take 7 = "!shape[".data := by rw [hd]; rfl
  have hdrop : ("!shape[ellipse](" ++ o ++ ")").data.drop 7 =
      'e' :: 'l' :: 'l' :: 'i' :: 'p' :: 's' :: 'e' :: (']' :: '(' :: (o.data ++ [')'])) := by
    rw [hd]; rfl
  have hgp := greedyTail_prefix ['e', 'l', 'l', 'i', 'p', 's', 'e']
    (']' :: '(' :: (o.data ++ [')'])) (by decide)
  simp only [shapeCapture, h7, if_true, hdrop]
  rw [show ('e' :: 'l' :: 'l' :: 'i' :: 'p' :: 's' :: 'e' ::
      (']' :: '(' :: (o.data ++ [')']))) =
      ['e', 'l', 'l', 'i', 'p', 's', 'e'] ++ (']' :: '(' :: (o.data ++ [')'])) from rfl, hgp]
  cases greedyTail (']' :: '(' :: (o.data ++ [')'])) <;> simp

/-- **C9.** For every options string `o`, the paragraphs `!shape[oval](o)`
and `!shape[ellipse](o)` produce identical shape elements on the current
slide: both names map to the same internal shape type string `'ellipse'`,
so the output cannot distinguish an authored oval from an authored
ellipse. -/
theorem C9_oval_ellipse_identical (j : String → Option ShapeOptions) (s : ParseState)
    (o : String) (tk1 tk2 : List InlineToken) :
    shapeNameMap "oval" = shapeNameMap "ellipse" ∧
    currentShapes (parseToken j s (.paragraph ("!shape[oval](" ++ o ++ ")") tk1)) =
      currentShapes (parseToken j s (.paragraph ("!shape[ellipse](" ++ o ++ ")") tk2)) := by
  refine ⟨rfl, ?_⟩
  cases hc : s.current with
  | none => simp [parseToken, hc]
  | some c =>
    have dO := data_shape_oval o
    have dE := data_shape_ellipse o
    have trimO : jsTrim ("!shape[oval](" ++ o ++ ")") = "!shape[oval](" ++ o ++ ")" :=
      jsTrim_of_bang_paren
        ('s' :: 'h' :: 'a' :: 'p' :: 'e' :: '[' :: 'o' :: 'v' :: 'a' :: 'l' :: ']' :: '(' ::
          o.data) (by rw [dO]; simp)
    have trimE : jsTrim ("!shape[ellipse](" ++ o ++ ")") = "!shape[ellipse](" ++ o ++ ")" :=
      jsTrim_of_bang_paren
        ('s' :: 'h' :: 'a' :: 'p' :: 'e' :: '[' :: 'e' :: 'l' :: 'l' :: 'i' :: 'p' :: 's' ::
          'e' :: ']' :: '(' :: o.data) (by rw [dE]; simp)
    have hnO : noteCapture ("!shape[oval](" ++ o ++ ")") = none := noteCapture_bang dO
    have hnE : noteCapture ("!shape[ellipse](" ++ o ++ ")") = none := noteCapture_bang dE
    have hiO : imgCapture ("!shape[oval](" ++ o ++ ")") = none :=
      imgCapture_shape_data dO
    have hiE : imgCapture ("!shape[ellipse](" ++ o ++ ")") = none :=
      imgCapture_shape_data dE
    have capO := shapeCapture_oval o
    have capE := shapeCapture_ellipse o
    cases hg : greedyTail (']' :: '(' :: (o.data ++ [')'])) with
    | none =>
        have capO' : shapeCapture ("!shape[oval](" ++ o ++ ")") = none := by
          rw [capO, hg]; rfl
        have capE' : shapeCapture ("!shape[ellipse](" ++ o ++ ")") = none := by
          rw [capE, hg]; rfl
        simp only [parseToken, hc, hnO, hnE, trimO, trimE, hiO, hiE, capO', capE']
        cases parseTextRuns tk1 TextOptions.empty <;>
          cases parseTextRuns tk2 TextOptions.empty <;>
            simp [currentShapes, isShapeEl, List.filter_append, hc]
    | some pq =>
        obtain ⟨p, q⟩ := pq
        have capO' : shapeCapture ("!shape[oval](" ++ o ++ ")") =
            some (⟨'o' :: 'v' :: 'a' :: 'l' :: p⟩, ⟨q⟩) := by rw [capO, hg]; rfl
        have capE' : shapeCapture ("!shape[ellipse](" ++ o ++ ")") =
            some (⟨'e' :: 'l' :: 'l' :: 'i' :: 'p' :: 's' :: 'e' :: p⟩, ⟨q⟩) := by
          rw [capE, hg]; rfl
        have hshift := shapeNameMap_shift p
        simp only [parseToken, hc, hnO, hnE, trimO, trimE, hiO, hiE, capO', capE']
        cases hm : shapeNameMap ⟨'e' :: 'l' :: 'l' :: 'i' :: 'p' :: 's' :: 'e' :: p⟩ with
        | none =>
            have hmO := hshift.trans hm
            simp [hmO, hm, currentShapes, hc]
        | some ty =>
            have hmO := hshift.trans hm
            cases hj : j ⟨q⟩ with
            | none => simp [hmO, hm, hj, currentShapes, hc]
            | some opts => simp [hmO, hm, hj, currentShapes, hc, List.filter_append]

/-! ## Claim C1: shape size and origin resolution -/

/-- There is room below the title band: the cursor 1.2 leaves more than the
usable threshold. -/
theorem topRoom : ¬(slideHeight - 1.2 - bottomMargin ≤ 0.1) := by
  norm_num [slideHeight, bottomMargin]

/-- The previous bound in the summand form `simp` normalizes to. -/
theorem topRoomBound : ¬(slideHeight ≤ 0.1 + bottomMargin + 1.2) := by
  norm_num [slideHeight, bottomMargin]

/-- A cursor at 5.4 leaves no usable room (remaining −0.025 ≤ 0.1). -/
theorem noRoom54 : slideHeight - 5.4 - bottomMargin ≤ 0.1 := by
  norm_num [slideHeight, bottomMargin]

/-- **C1 counterexample.** An author-supplied `x` inside a shape's options
*does* move the placed shape: `{ x, w, ...el.options, y: yOffset }` lets
`el.options.x` override the layout-computed column origin, so the placed x
is 3, not the column's 0.5 — refuting "the layout-computed origin (both x
and y) always wins". -/
theorem C1_shape_origin_cex :
    (renderElements [SlideElement.shape (ShapeVal.str "rect") ⟨some 3, some 7, none, none, none⟩]
        0.5 1.2 9).1 = [Placed.shape (ShapeVal.str "rect") 3 1.2 9 none] ∧
    (3 : ℚ) ≠ 0.5 := by
  constructor
  · simp [renderElements, topRoomBound]
  · norm_num

/-- **C1 (amended).** For every shape element laid out by the layout
engine, size and horizontal-origin options explicitly present in the
shape's own options take precedence over the layout-computed column box
(`w`, and also `x`), while the layout-computed vertical origin always wins:
the placed `y` is the running cursor, and an author-supplied `y` in the
options never affects the placed position. -/
theorem C1_shape_size_position (ty : ShapeVal) (opts : ShapeOptions)
    (rest : List SlideElement) (x y w : ℚ)
    (h : ¬(slideHeight - y - bottomMargin ≤ 0.1)) :
    ((renderElements (SlideElement.shape ty opts :: rest) x y w).1 =
      Placed.shape ty (opts.x.getD x) y (opts.w.getD w) opts.h ::
        (renderElements rest x (y + shapeHeightEff opts.h + 0.2) w).1) ∧
    (∀ yAuthor : ℚ,
      renderElements (SlideElement.shape ty { opts with y := some yAuthor } :: rest) x y w =
        renderElements (SlideElement.shape ty opts :: rest) x y w) := by
  constructor
  · simp [renderElements, h]
  · intro yAuthor
    simp [renderElements, h]

/-- Witness for C1 (amended): options `{x:3, y:7, w:2, h:1}` place at
x = 3 (the author x), y = 1.2 (the cursor), w = 2, and changing the
authored y from 7 to 99 changes nothing. -/
theorem C1_shape_size_position_witness :
    ((renderElements [SlideElement.shape (ShapeVal.str "rect") ⟨some 3, some 7, some 2, some 1, none⟩]
        0.5 1.2 9).1 =
      Placed.shape (ShapeVal.str "rect") ((some (3 : ℚ)).getD 0.5) 1.2 ((some (2 : ℚ)).getD 9)
          (some 1) ::
        (renderElements [] 0.5 (1.2 + shapeHeightEff (some 1) + 0.2) 9).1) ∧
    renderElements [SlideElement.shape (ShapeVal.str "rect") ⟨some 3, some 99, some 2, some 1, none⟩]
        0.5 1.2 9 =
      renderElements [SlideElement.shape (ShapeVal.str "rect") ⟨some 3, some 7, some 2, some 1, none⟩]
        0.5 1.2 9 :=
  ⟨(C1_shape_size_position (ShapeVal.str "rect") ⟨some 3, some 7, some 2, some 1, none⟩
      [] 0.5 1.2 9 topRoom).1,
   (C1_shape_size_position (ShapeVal.str "rect") ⟨some 3, some 7, some 2, some 1, none⟩
      [] 0.5 1.2 9 topRoom).2 99⟩

/-! ## Claim C8: overflow truncation -/

theorem renderElements_diags (elems : List SlideElement) :
    ∀ x y w, (renderElements elems x y w).2.2 = [] := by
  induction elems with
  | nil => intro x y w; rfl
  | cons el rest ih =>
      intro x y w
      by_cases hrem : slideHeight - y - bottomMargin ≤ 0.1
      · simp [renderElements, hrem]
      · cases el <;> simp [renderElements, hrem, ih]

theorem renderElements_placed_space (elems : List SlideElement) :
    ∀ x y w, ∀ p_ ∈ (renderElements elems x y w).1,
      ¬(slideHeight - placedY p_ - bottomMargin ≤ 0.1) := by
  induction elems with
  | nil => intro x y w p_ hp; simp [renderElements] at hp
  | cons el rest ih =>
      intro x y w p_ hp
      by_cases hrem : slideHeight - y - bottomMargin ≤ 0.1
      · simp [renderElements, hrem] at hp
      · cases el with
        | textBlock runs =>
            simp only [renderElements, hrem, if_false] at hp
            rcases List.mem_cons.mp hp with rfl | hp
            · simpa [placedY] using hrem
            · exact ih x _ w p_ hp
        | image href alt =>
            simp only [renderElements, hrem, if_false] at hp
            rcases List.mem_cons.mp hp with rfl | hp
            · simpa [placedY] using hrem
            · exact ih x _ w p_ hp
        | table headers rows =>
            simp only [renderElements, hrem, if_false] at hp
            rcases List.mem_cons.mp hp with rfl | hp
            · simpa [placedY] using hrem
            · exact ih x _ w p_ hp
        | shape ty opts =>
            simp only [renderElements, hrem, if_false] at hp
            rcases List.mem_cons.mp hp with rfl | hp
            · simpa [placedY] using hrem
            · exact ih x _ w p_ hp
        | columnBreak =>
            simp only [renderElements, hrem, if_false] at hp
            exact ih x y w p_ hp

/-- **C8.** During column layout an element is never placed when the
remaining vertical space (canvas height minus cursor minus bottom margin)
is at or below the 0.1 threshold; once the cursor reaches that state the
loop stops, placing nothing further and advancing nothing; and the
truncation emits no diagnostic. -/
theorem C8_overflow_truncation :
    (∀ (elems : List SlideElement) (x y w : ℚ), ∀ p_ ∈ (renderElements elems x y w).1,
      ¬(slideHeight - placedY p_ - bottomMargin ≤ 0.1)) ∧
    (∀ (el : SlideElement) (rest : List SlideElement) (x y w : ℚ),
      slideHeight - y - bottomMargin ≤ 0.1 →
      renderElements (el :: rest) x y w = ([], y, [])) ∧
    (∀ (elems : List SlideElement) (x y w : ℚ), (renderElements elems x y w).2.2 = []) := by
  refine ⟨fun elems x y w => renderElements_placed_space elems x y w, ?_,
    fun elems x y w => renderElements_diags elems x y w⟩
  intro el rest x y w h
  simp [renderElements, h]

/-- Witness for C8: an image placed at the top band has remaining space
above the threshold, and a column whose cursor sits at 5.4 places nothing. -/
theorem C8_overflow_truncation_witness :
    ¬(slideHeight - placedY (Placed.image "p" 0.5 1.2 9 3) - bottomMargin ≤ 0.1) ∧
    renderElements [SlideElement.image "p" "a"] 0.5 5.4 9 = ([], 5.4, []) :=
  ⟨C8_overflow_truncation.1 [SlideElement.image "p" "a"] 0.5 1.2 9 _
      (by simp [renderElements, topRoomBound]),
   C8_overflow_truncation.2.1 (SlideElement.image "p" "a") [] 0.5 5.4 9 noRoom54⟩

/-! ## Claim C10: cursor monotonicity -/

/-- The condition under which a shape's cursor advance
`(options.h || 1) + 0.2` is strictly positive: its declared height, when
present and non-zero, exceeds −0.2. Non-shape elements always advance. -/
def shapeAdvanceOk : SlideElement → Prop
  | .shape _ opts =>
      match opts.h with
      | some v => v = 0 ∨ -0.2 < v
      | none => True
  | _ => True

theorem estimatedLines_ge_one (runs : List TextProps) : 1 ≤ estimatedLines runs := by
  have aux : ∀ (rs : List TextProps) (a : ℚ),
      a ≤ rs.foldl (fun acc r => acc + (if (r.options.getD {}).breakLine then 1 else 0)) a := by
    intro rs
    induction rs with
    | nil => intro a; simp
    | cons r rest ih =>
        intro a
        refine le_trans ?_ (ih (a + (if (r.options.getD {}).breakLine then 1 else 0)))
        split <;> norm_num
  exact aux runs 1

theorem shapeHeightEff_ok {ty : ShapeVal} {opts : ShapeOptions}
    (hok : shapeAdvanceOk (SlideElement.shape ty opts)) :
    -0.2 < shapeHeightEff opts.h := by
  cases hh : opts.h with
  | none => norm_num [shapeHeightEff]
  | some v =>
      simp only [shapeAdvanceOk, hh] at hok
      by_cases hz : v = 0
      · norm_num [shapeHeightEff, hz]
      · rcases hok with rfl | hv
        · exact absurd rfl hz
        · simpa [shapeHeightEff, hz] using hv

/-- **C10 (amended).** For every column whose shape elements each declare a
height option that is absent, zero, or greater than −0.2 (in particular any
column without shapes, or whose shapes have nonnegative nonzero heights),
the y coordinates of the placed elements are strictly increasing in
placement order and every placed y is at least the starting cursor (1.2
when called from `buildPptx`): under that condition every advance is
strictly positive, but a shape height at or below −0.2 moves the cursor
backwards and the claim fails as stated. -/
theorem C10_monotone_cursor (elems : List SlideElement) (x y w : ℚ)
    (hok : ∀ el ∈ elems, shapeAdvanceOk el) :
    List.Chain' (· < ·) (((renderElements elems x y w).1).map placedY) ∧
    ∀ p_ ∈ (renderElements elems x y w).1, y ≤ placedY p_ := by
  induction elems generalizing y with
  | nil => simp [renderElements]
  | cons el rest ih =>
      have hokrest : ∀ e ∈ rest, shapeAdvanceOk e :=
        fun e he => hok e (List.mem_cons_of_mem el he)
      by_cases hrem : slideHeight - y - bottomMargin ≤ 0.1
      · simp [renderElements, hrem]
      · have hremlt : (0.1 : ℚ) < slideHeight - y - bottomMargin := not_le.mp hrem
        have step : ∀ (yn : ℚ) (P : Placed), y < yn → placedY P = y →
            List.Chain' (· < ·) ((P :: (renderElements rest x yn w).1).map placedY) ∧
            ∀ p_ ∈ P :: (renderElements rest x yn w).1, y ≤ placedY p_ := by
          intro yn P hy hP
          obtain ⟨ihc, ihm⟩ := ih yn hokrest
          constructor
          · rw [List.map_cons]
            refine List.chain'_cons'.mpr ⟨?_, ihc⟩
            intro b hb
            obtain ⟨p, hpmem, rfl⟩ := List.mem_map.mp (List.mem_of_mem_head? hb)
            rw [hP]
            exact lt_of_lt_of_le hy (ihm p hpmem)
          · intro p_ hp
            rcases List.mem_cons.mp hp with rfl | hp
            · exact le_of_eq hP.symm
            · exact le_of_lt (lt_of_lt_of_le hy (ihm p_ hp))
        cases el with
        | textBlock runs =>
            have hadv : y < y + min (slideHeight - y - bottomMargin)
                (estimatedLines runs * 0.5) + 0.1 := by
              have h1 : (0 : ℚ) < min (slideHeight - y - bottomMargin)
                  (estimatedLines runs * 0.5) := by
                apply lt_min
                · linarith
                · have h2 := estimatedLines_ge_one runs
                  nlinarith
              linarith
            have hre : renderElements (SlideElement.textBlock runs :: rest) x y w =
                (Placed.text runs x y w (min (slideHeight - y - bottomMargin)
                    (estimatedLines runs * 0.5)) ::
                  (renderElements rest x (y + min (slideHeight - y - bottomMargin)
                    (estimatedLines runs * 0.5) + 0.1) w).1,
                 (renderElements rest x (y + min (slideHeight - y - bottomMargin)
                    (estimatedLines runs * 0.5) + 0.1) w).2) := by
              simp only [renderElements]
              rw [if_neg hrem]
            rw [hre]
            exact step _ _ hadv rfl
        | image href alt =>
            have hadv : y < y + 3.2 := by linarith
            have hre : renderElements (SlideElement.image href alt :: rest) x y w =
                (Placed.image href x y w 3 ::
                  (renderElements rest x (y + 3.2) w).1,
                 (renderElements rest x (y + 3.2) w).2) := by
              simp only [renderElements]
              rw [if_neg hrem]
            rw [hre]
            exact step _ _ hadv rfl
        | table headers rows =>
            have hadv : y < y + rows.length * 0.5 + 0.5 := by
              have h1 : (0 : ℚ) ≤ (rows.length : ℚ) := Nat.cast_nonneg _
              nlinarith
            have hre : renderElements (SlideElement.table headers rows :: rest) x y w =
                (Placed.table (headers :: rows) x y w ::
                  (renderElements rest x (y + rows.length * 0.5 + 0.5) w).1,
                 (renderElements rest x (y + rows.length * 0.5 + 0.5) w).2) := by
              simp only [renderElements]
              rw [if_neg hrem]
            rw [hre]
            exact step _ _ hadv rfl
        | shape ty opts =>
            have hef := shapeHeightEff_ok (hok _ (List.mem_cons_self _ rest))
            have hadv : y < y + shapeHeightEff opts.h + 0.2 := by linarith
            have hre : renderElements (SlideElement.shape ty opts :: rest) x y w =
                (Placed.shape ty (opts.x.getD x) y (opts.w.getD w) opts.h ::
                  (renderElements rest x (y + shapeHeightEff opts.h + 0.2) w).1,
                 (renderElements rest x (y + shapeHeightEff opts.h + 0.2) w).2) := by
              simp only [renderElements]
              rw [if_neg hrem]
            rw [hre]
            exact step _ _ hadv rfl
        | columnBreak =>
            have hre : renderElements (SlideElement.columnBreak :: rest) x y w =
                renderElements rest x y w := by
              simp only [renderElements]
              rw [if_neg hrem]
            rw [hre]
            exact ih y hokrest

/-- **C10 counterexample.** A shape declaring height −1 advances the cursor
by −0.8: with elements `[shape h=−1, shape]` the placed ys are
`[1.2, 0.4]` — neither strictly increasing nor bounded below by the 1.2
start offset — refuting the claim as stated. -/
theorem C10_monotone_cex :
    ¬(List.Chain' (· < ·)
        (((renderElements [SlideElement.shape (ShapeVal.str "rect") ⟨none, none, none, some (-1), none⟩,
            SlideElement.shape (ShapeVal.str "rect") ⟨none, none, none, none, none⟩] 0.5 1.2 9).1).map
          placedY) ∧
      ∀ p_ ∈ (renderElements [SlideElement.shape (ShapeVal.str "rect") ⟨none, none, none, some (-1), none⟩,
          SlideElement.shape (ShapeVal.str "rect") ⟨none, none, none, none, none⟩] 0.5 1.2 9).1,
        (1.2 : ℚ) ≤ placedY p_) := by
  intro hcl
  have hlist : (renderElements [SlideElement.shape (ShapeVal.str "rect") ⟨none, none, none, some (-1), none⟩,
      SlideElement.shape (ShapeVal.str "rect") ⟨none, none, none, none, none⟩] 0.5 1.2 9).1 =
      [Placed.shape (ShapeVal.str "rect") 0.5 1.2 9 (some (-1)),
       Placed.shape (ShapeVal.str "rect") 0.5 0.4 9 none] := by
    norm_num [renderElements, shapeHeightEff, slideHeight, bottomMargin]
  have hchain := hcl.1
  rw [hlist] at hchain
  simp only [List.map_cons, List.map_nil, placedY, List.chain'_cons, List.chain'_singleton,
    and_true] at hchain
  norm_num at hchain

/-- Witness for C10 (amended) on a shape-free column: two images at the
top band. -/
theorem C10_monotone_cursor_witness :
    List.Chain' (· < ·) (((renderElements [SlideElement.image "p" "a",
        SlideElement.image "q" "b"] 0.5 1.2 9).1).map placedY) ∧
    (1.2 : ℚ) ≤ placedY (Placed.image "p" 0.5 1.2 9 3) :=
  ⟨(C10_monotone_cursor [SlideElement.image "p" "a", SlideElement.image "q" "b"]
      0.5 1.2 9 (by simp [shapeAdvanceOk])).1,
   (C10_monotone_cursor [SlideElement.image "p" "a", SlideElement.image "q" "b"]
      0.5 1.2 9 (by simp [shapeAdvanceOk])).2 _
     (by simp [renderElements, topRoomBound])⟩

end Md2Pptx
